import Mathlib

/-
Shallow embedding of src/daemon.py (jitsi-conferencemapper-api).

The daemon keeps a SQLite table `conferences (id integer, jid text,
created_time integer)` with no uniqueness constraints; rows are returned
by unordered SELECT ... fetchone, which for this append-only table yields
the first matching row in insertion order.  We model the table as a list
of rows in insertion order and every fetchone as List.find?.

Pythons builtin `hash` of a string is opaque (stable only within one
process); we model it as an explicit parameter `hashFn : String → Int`.
CPython string hashes range over [-2^63, 2^63-1] and never equal -1;
theorems that need the range state it as a hypothesis.

`time.time()` is modelled by an explicit `now : Int` argument on the
operations that read the clock.
-/

def ID_LENGTH : Nat := 5

def EXPIRE_SECONDS : Int := 60 * 60 * 24 * 3

/-- sys.maxsize on a 64-bit CPython. -/
def maxsize : Int := 2 ^ 63 - 1

/-- A row of the `conferences` table: (id, jid, created_time). -/
structure Row where
  id : Int
  jid : String
  created_time : Int
deriving DecidableEq

/-- The `conferences` table, rows in insertion order. -/
abbrev Table := List Row

/-- Model of `int(str(h)[-ID_LENGTH:])`.  For h ≥ 0 this is the last
ID_LENGTH decimal digits, i.e. h % 10^ID_LENGTH.  For h < 0, str(h) is a
minus sign followed by the digits of |h|: if |h| has at most
ID_LENGTH - 1 digits the slice keeps the sign (result h itself),
otherwise the slice is the last ID_LENGTH digit characters of |h|. -/
def lastDigits (h : Int) : Int :=
  if 0 ≤ h then h % (10 ^ ID_LENGTH : Nat)
  else if h.natAbs < 10 ^ (ID_LENGTH - 1) then h
  else ((h.natAbs % 10 ^ ID_LENGTH : Nat) : Int)

/-- Model of the normalisation step of ConferenceMaps.__generate_room_id:
`if h < 0: h += sys.maxsize`. -/
def normalizeHash (hv : Int) : Int :=
  if hv < 0 then hv + maxsize else hv

/-- ConferenceMaps.__generate_room_id, with the opaque `hash(jid)` value
passed in as `hv`. -/
def generate_room_id (hv : Int) (offset : Nat) : Int :=
  lastDigits (normalizeHash hv + (offset : Int))

/-- SELECT ... FROM conferences WHERE jid = ? ... fetchone. -/
def find_row_by_jid (jid : String) (t : Table) : Option Row :=
  t.find? (fun r => r.jid == jid)

/-- SELECT ... FROM conferences WHERE id = ? ... fetchone
(ConferenceMaps.__lookup_id). -/
def find_row_by_id (room_id : Int) (t : Table) : Option Row :=
  t.find? (fun r => r.id == room_id)

/-- ConferenceMaps.find_by_id: the jid of the first row with the given
id, or None. -/
def find_by_id (room_id : Int) (t : Table) : Option String :=
  (find_row_by_id room_id t).map Row.jid

/-- ConferenceMaps.create_room.  The source recurses on `offset + 1`
without any bound, so the embedding takes explicit fuel; `none` means the
recursion did not return within `fuel` probes.  On success it returns the
new id and the table with the row appended (INSERT). -/
def create_room (hashFn : String → Int) (now : Int) :
    Nat → String → Table → Nat → Option (Int × Table)
  | 0, _, _, _ => none
  | fuel + 1, jid, t, offset =>
    let new_room_id := generate_room_id (hashFn jid) offset
    match find_by_id new_room_id t with
    | some _ => create_room hashFn now fuel jid t (offset + 1)
    | none => some (new_room_id, t ++ [⟨new_room_id, jid, now⟩])

/-- ConferenceMaps.find_by_jid: return the id of the first row with this
jid, else create the room (create_room starting at offset 0). -/
def find_by_jid (hashFn : String → Int) (now : Int) (fuel : Nat)
    (jid : String) (t : Table) : Option (Int × Table) :=
  match find_row_by_jid jid t with
  | some r => some (r.id, t)
  | none => create_room hashFn now fuel jid t 0

/-- ConferenceMaps.clean: DELETE FROM conferences WHERE created_time < now
- EXPIRE_SECONDS, i.e. keep exactly the rows with created_time ≥ now -
EXPIRE_SECONDS. -/
def clean (now : Int) (t : Table) : Table :=
  t.filter (fun r => decide (now - EXPIRE_SECONDS ≤ r.created_time))

/-- Model of Pythons `int(s)` on the digit core: an optional sign followed
by a nonempty run of decimal digits.  (Python additionally strips
surrounding whitespace and allows underscores between digit groups; the
theorems below only depend on whether the parse yields an integer and on
its value, so that refinement is immaterial to them.) -/
def parseDigits (cs : List Char) : Option Nat :=
  match cs with
  | [] => none
  | _ =>
    if cs.all (fun c => c.isDigit) then
      some (cs.foldl (fun a c => a * 10 + (c.toNat - 48)) 0)
    else none

def parseInt (s : String) : Option Int :=
  match s.toList with
  | '-' :: rest => (parseDigits rest).map (fun n => -(n : Int))
  | '+' :: rest => (parseDigits rest).map (fun n => (n : Int))
  | cs => (parseDigits cs).map (fun n => (n : Int))

/-- A JSON response of the API: HTTP status, message, optional id and
conference fields. -/
structure Response where
  status_code : Nat
  message : String
  id : Option Int
  conference : Option String
deriving DecidableEq

def okMappingResponse (c : Int) (jid : String) : Response :=
  ⟨200, "Successfully retrieved conference mapping", some c, some jid⟩

/-- API.do_GET on path /conferenceMapper.  `conference` and `id_param`
are the first values of the respective query parameters as produced by
parse_qs (absent or blank parameters are dropped by parse_qs, hence
`none`).  In the conference branch any exception from find_by_jid is
mapped to a 500 response; in the embedding the only failure is fuel
exhaustion of the unbounded recursion.  The id branch parses the value
with int(), rejects values ≤ 0 (ValueError) with 400, answers 404 when
find_by_id returns None, else 200. -/
def conferenceMapper_GET (hashFn : String → Int) (now : Int) (fuel : Nat)
    (conference id_param : Option String) (t : Table) : Response × Table :=
  match conference with
  | some jid =>
    match find_by_jid hashFn now fuel jid t with
    | some (c, t2) => (okMappingResponse c jid, t2)
    | none => (⟨500, "ID allocation failed", none, some jid⟩, t)
  | none =>
    match id_param with
    | some v =>
      match parseInt v with
      | some n =>
        if n ≤ 0 then (⟨400, "Invalid ID", none, none⟩, t)
        else
          match find_by_id n t with
          | none => (⟨404, "Room ID not found", none, none⟩, t)
          | some jid => (okMappingResponse n jid, t)
      | none => (⟨400, "Invalid ID", none, none⟩, t)
    | none => (⟨400, "No conference or ID provided.", none, none⟩, t)

/-- The id column has no duplicates among live rows. -/
def idsUnique (t : Table) : Prop := (t.map Row.id).Nodup

/-- The jid column has no duplicates among live rows. -/
def jidsUnique (t : Table) : Prop := (t.map Row.jid).Nodup

instance (t : Table) : Decidable (idsUnique t) :=
  inferInstanceAs (Decidable (t.map Row.id).Nodup)

instance (t : Table) : Decidable (jidsUnique t) :=
  inferInstanceAs (Decidable (t.map Row.jid).Nodup)

/-- Store states reachable from the empty table through the public
operations of the daemon: find_by_jid (which on a miss runs create_room)
and clean.  find_by_id is read-only and does not change the state, so it
contributes no transition. -/
inductive Reachable (hashFn : String → Int) : Table → Prop where
  | empty : Reachable hashFn []
  | find (now : Int) (fuel : Nat) (jid : String) (t : Table) (c : Int)
      (t2 : Table) (hr : Reachable hashFn t)
      (hstep : find_by_jid hashFn now fuel jid t = some (c, t2)) :
      Reachable hashFn t2
  | cleanStep (now : Int) (t : Table) (hr : Reachable hashFn t) :
      Reachable hashFn (clean now t)

/-- A concrete stand-in for the opaque CPython string hash; 0 is in the
CPython hash range and is in fact the CPython hash of the empty string. -/
def hzero : String → Int := fun _ => 0

/-! Helper lemmas about the store operations. -/

theorem find_by_id_eq_none_iff (c : Int) (t : Table) :
    find_by_id c t = none ↔ ∀ r ∈ t, r.id ≠ c := by
  simp [find_by_id, find_row_by_id, List.find?_eq_none]

theorem find_by_id_isSome_iff (c : Int) (t : Table) :
    (find_by_id c t).isSome ↔ ∃ r ∈ t, r.id = c := by
  simp [find_by_id, find_row_by_id, List.find?_isSome]

theorem find_row_by_jid_eq_none_iff (jid : String) (t : Table) :
    find_row_by_jid jid t = none ↔ ∀ r ∈ t, r.jid ≠ jid := by
  simp [find_row_by_jid, List.find?_eq_none]

theorem create_room_spec (hashFn : String → Int) (now : Int) (fuel : Nat) :
    ∀ (offset : Nat) (jid : String) (t : Table) (c : Int) (t2 : Table),
      create_room hashFn now fuel jid t offset = some (c, t2) →
      t2 = t ++ [⟨c, jid, now⟩] ∧ find_by_id c t = none ∧
        ∃ k, offset ≤ k ∧ c = generate_room_id (hashFn jid) k ∧
          ∀ j, offset ≤ j → j < k →
            (find_by_id (generate_room_id (hashFn jid) j) t).isSome := by
  induction fuel with
  | zero =>
    intro offset jid t c t2 h
    simp [create_room] at h
  | succ fuel ih =>
    intro offset jid t c t2 h
    cases hfd : find_by_id (generate_room_id (hashFn jid) offset) t with
    | some s =>
      simp only [create_room, hfd] at h
      obtain ⟨ht2, hfree, k, hk1, hk2, hk3⟩ := ih (offset + 1) jid t c t2 h
      refine ⟨ht2, hfree, k, by omega, hk2, ?_⟩
      intro j hj1 hj2
      rcases Nat.eq_or_lt_of_le hj1 with hj | hj
      · rw [← hj, hfd]; rfl
      · exact hk3 j hj hj2
    | none =>
      simp only [create_room, hfd, Option.some.injEq, Prod.mk.injEq] at h
      obtain ⟨hc, ht2⟩ := h
      subst hc
      exact ⟨ht2.symm, hfd, offset, Nat.le_refl _, rfl, fun j h1 h2 => by omega⟩

theorem find_row_by_jid_append_self (jid : String) (t : Table)
    (h : find_row_by_jid jid t = none) (r : Row) (hr : r.jid = jid) :
    find_row_by_jid jid (t ++ [r]) = some r := by
  simp only [find_row_by_jid] at h ⊢
  rw [List.find?_append, h]
  simp [hr]

theorem idsUnique_append (t : Table) (r : Row) (hu : idsUnique t)
    (hfree : find_by_id r.id t = none) : idsUnique (t ++ [r]) := by
  simp only [idsUnique, List.map_append, List.map_cons, List.map_nil,
    List.nodup_append] at hu ⊢
  rw [find_by_id_eq_none_iff] at hfree
  refine ⟨hu, List.nodup_singleton _, ?_⟩
  intro a ha hb
  simp only [List.mem_singleton] at hb
  obtain ⟨s, hs, hsid⟩ := List.mem_map.mp ha
  exact hfree s hs (by rw [hsid, hb])

theorem jidsUnique_append (t : Table) (r : Row) (hu : jidsUnique t)
    (hfree : find_row_by_jid r.jid t = none) : jidsUnique (t ++ [r]) := by
  simp only [jidsUnique, List.map_append, List.map_cons, List.map_nil,
    List.nodup_append] at hu ⊢
  rw [find_row_by_jid_eq_none_iff] at hfree
  refine ⟨hu, List.nodup_singleton _, ?_⟩
  intro a ha hb
  simp only [List.mem_singleton] at hb
  obtain ⟨s, hs, hsjid⟩ := List.mem_map.mp ha
  exact hfree s hs (by rw [hsjid, hb])

theorem find_by_jid_preserves_unique (hashFn : String → Int) (now : Int)
    (fuel : Nat) (jid : String) (t : Table) (c : Int) (t2 : Table)
    (hu : idsUnique t ∧ jidsUnique t)
    (h : find_by_jid hashFn now fuel jid t = some (c, t2)) :
    idsUnique t2 ∧ jidsUnique t2 := by
  rw [find_by_jid] at h
  cases hfr : find_row_by_jid jid t with
  | some r =>
    rw [hfr] at h
    simp only [Option.some.injEq, Prod.mk.injEq] at h
    rw [← h.2]
    exact hu
  | none =>
    rw [hfr] at h
    obtain ⟨ht2, hfree, -⟩ := create_room_spec hashFn now fuel 0 jid t c t2 h
    subst ht2
    exact ⟨idsUnique_append t _ hu.1 hfree, jidsUnique_append t _ hu.2 hfr⟩

theorem clean_preserves_unique (now : Int) (t : Table)
    (hu : idsUnique t ∧ jidsUnique t) :
    idsUnique (clean now t) ∧ jidsUnique (clean now t) := by
  have hs : List.Sublist (clean now t) t := List.filter_sublist t
  exact ⟨List.Nodup.sublist (hs.map Row.id) hu.1,
    List.Nodup.sublist (hs.map Row.jid) hu.2⟩

/-- Invariant of all reachable states: both columns are duplicate-free. -/
theorem reachable_unique (hashFn : String → Int) (t : Table)
    (h : Reachable hashFn t) : idsUnique t ∧ jidsUnique t := by
  induction h with
  | empty => exact ⟨List.nodup_nil, List.nodup_nil⟩
  | find now fuel jid t c t2 hr hstep ih =>
    exact find_by_jid_preserves_unique hashFn now fuel jid t c t2 ih hstep
  | cleanStep now t hr ih => exact clean_preserves_unique now t ih

/-! Claim theorems. -/

/-- C1 counterexample: the hash value 0 is in the CPython hash range (it
is in fact the CPython hash of the empty string), and at offset 0 the
derive step yields room id 0, which is not positive; create_room then
inserts a live row whose code is 0.  More generally any hash-plus-offset
value whose last five decimal digits are all zero yields code 0. -/
theorem generate_room_id_zero_cex :
    generate_room_id 0 0 = 0 ∧ ¬ (0 < generate_room_id 0 0) ∧
    create_room hzero 0 1 "" [] 0 = some (0, [⟨0, "", 0⟩]) := by
  decide

/-- C1 (amended): for every hash value in the CPython range [-2^63,
2^63) and every probe offset (excluding the corner hash -2^63 at offset
0, whose normalised value is -1), the derived code satisfies 0 ≤ code <
10^5 = 10^ID_LENGTH; the code is fixed-width but need not be positive
(it is 0 whenever the last five digits of the normalised hash plus
offset are zero). -/
theorem generate_room_id_range (hv : Int) (offset : Nat)
    (hlo : -(2 ^ 63) ≤ hv) (hhi : hv < 2 ^ 63)
    (hcorner : hv = -(2 ^ 63) → 1 ≤ offset) :
    0 ≤ generate_room_id hv offset ∧ generate_room_id hv offset < 10 ^ 5 := by
  have h63 : (2 : Int) ^ 63 = 9223372036854775808 := by norm_num
  have hnorm : 0 ≤ normalizeHash hv + (offset : Int) := by
    unfold normalizeHash maxsize
    split
    · rcases eq_or_lt_of_le hlo with he | hlt
      · have := hcorner he.symm
        omega
      · omega
    · omega
  have he5 : ((10 ^ ID_LENGTH : Nat) : Int) = 100000 := by
    norm_num [ID_LENGTH]
  rw [generate_room_id, lastDigits, if_pos hnorm, he5]
  norm_num
  omega

/-- Witness instantiating the amended C1 theorem at hash value 5,
offset 0. -/
theorem generate_room_id_range_witness :
    0 ≤ generate_room_id 5 0 ∧ generate_room_id 5 0 < 10 ^ 5 :=
  generate_room_id_range 5 0 (by decide) (by decide) (by decide)

/-- C2 counterexample: create_room checks only that the freshly derived
id is unused, never that the jid is absent.  Calling create_room twice
for the same identifier (with the constant-0 stand-in hash) therefore
yields a state, reachable by a sequence of create_room operations from
the empty table, in which two live rows share the identifier "a"; the
id column stays unique but the identifier column does not. -/
theorem direct_create_room_duplicate_jid_cex :
    create_room hzero 0 10 "a" [] 0 = some (0, [⟨0, "a", 0⟩]) ∧
    create_room hzero 0 10 "a" [⟨0, "a", 0⟩] 0
      = some (1, [⟨0, "a", 0⟩, ⟨1, "a", 0⟩]) ∧
    idsUnique [⟨0, "a", 0⟩, ⟨1, "a", 0⟩] ∧
    ¬ jidsUnique [⟨0, "a", 0⟩, ⟨1, "a", 0⟩] := by
  decide

/-- C2 (amended): in every state reachable from the empty table through
the public operations find_by_jid (which runs create_room only on a
miss), find_by_id (read-only) and clean, the id column and the jid
column are each duplicate-free. -/
theorem reachable_columns_unique (hashFn : String → Int) (t : Table)
    (h : Reachable hashFn t) : idsUnique t ∧ jidsUnique t :=
  reachable_unique hashFn t h

/-- Witness instantiating the amended C2 theorem on the state reached by
one find_by_jid call on the empty table. -/
theorem reachable_columns_unique_witness :
    idsUnique [⟨0, "w", 5⟩] ∧ jidsUnique [⟨0, "w", 5⟩] :=
  reachable_columns_unique hzero _
    (Reachable.find 5 1 "w" [] 0 [⟨0, "w", 5⟩] Reachable.empty (by decide))

/-- C3: round-trip.  In any reachable state, if find_by_jid returns code
c (creating the entry on a miss), then find_by_id on c in the resulting
state returns the identifier. -/
theorem find_by_jid_roundtrip (hashFn : String → Int) (now : Int)
    (fuel : Nat) (jid : String) (t : Table) (c : Int) (t2 : Table)
    (hreach : Reachable hashFn t)
    (h : find_by_jid hashFn now fuel jid t = some (c, t2)) :
    find_by_id c t2 = some jid := by
  have hids : idsUnique t := (reachable_unique hashFn t hreach).1
  rw [find_by_jid] at h
  cases hfr : find_row_by_jid jid t with
  | some r =>
    rw [hfr] at h
    simp only [Option.some.injEq, Prod.mk.injEq] at h
    obtain ⟨hc, ht2⟩ := h
    rw [← ht2]
    have hrjid : r.jid = jid := by
      have := List.find?_some hfr
      simpa using this
    have hrmem : r ∈ t := List.mem_of_find?_eq_some hfr
    cases hfi : find_row_by_id c t with
    | none =>
      rw [find_row_by_id, List.find?_eq_none] at hfi
      exact absurd (by simp [← hc] : (r.id == c) = true) (by simpa using hfi r hrmem)
    | some s =>
      have hsid : s.id = c := by simpa using List.find?_some hfi
      have hsmem : s ∈ t := List.mem_of_find?_eq_some hfi
      have hsr : s = r :=
        List.inj_on_of_nodup_map hids hsmem hrmem (by rw [hsid, ← hc])
      simp [find_by_id, hfi, hsr, hrjid]
  | none =>
    rw [hfr] at h
    obtain ⟨ht2, hfree, -⟩ := create_room_spec hashFn now fuel 0 jid t c t2 h
    subst ht2
    have hfr2 : find_row_by_id c t = none := by
      cases hx : find_row_by_id c t with
      | none => rfl
      | some s => rw [find_by_id, hx] at hfree; simp at hfree
    rw [find_by_id, find_row_by_id, List.find?_append]
    rw [find_row_by_id] at hfr2
    rw [hfr2]
    simp

/-- Witness instantiating the C3 round-trip theorem on the empty table:
the entry created for "a" is found again by its code. -/
theorem find_by_jid_roundtrip_witness :
    find_by_id 0 [⟨0, "a", 7⟩] = some "a" :=
  find_by_jid_roundtrip hzero 7 1 "a" [] 0 [⟨0, "a", 7⟩]
    Reachable.empty (by decide)

/-- C4: determinism of lookup-by-identifier.  Once find_by_jid has
returned code c with store state t2, any later find_by_jid call for the
same identifier (any clock value, any fuel, as long as no expiry sweep
intervened) returns the same code and leaves the state unchanged; this
holds for every starting state, reachable or not. -/
theorem find_by_jid_deterministic (hashFn : String → Int)
    (now now2 : Int) (fuel fuel2 : Nat) (jid : String) (t : Table)
    (c : Int) (t2 : Table)
    (h : find_by_jid hashFn now fuel jid t = some (c, t2)) :
    find_by_jid hashFn now2 fuel2 jid t2 = some (c, t2) := by
  rw [find_by_jid] at h
  cases hfr : find_row_by_jid jid t with
  | some r =>
    rw [hfr] at h
    simp only [Option.some.injEq, Prod.mk.injEq] at h
    obtain ⟨hc, ht2⟩ := h
    rw [find_by_jid, ← ht2, hfr]
    simp [hc]
  | none =>
    rw [hfr] at h
    obtain ⟨ht2, hfree, -⟩ := create_room_spec hashFn now fuel 0 jid t c t2 h
    subst ht2
    rw [find_by_jid, find_row_by_jid_append_self jid t hfr ⟨c, jid, now⟩ rfl]

/-- Witness instantiating the C4 determinism theorem: after the entry
for "a" has been created, a repeated call (with a different clock value
and no fuel) returns the same code and state. -/
theorem find_by_jid_deterministic_witness :
    find_by_jid hzero 9 0 "a" [⟨0, "a", 7⟩] = some (0, [⟨0, "a", 7⟩]) :=
  find_by_jid_deterministic hzero 7 9 1 0 "a" [] 0 [⟨0, "a", 7⟩] (by decide)

/-- C5: collision resolution.  Whenever create_room (the allocation
entered by find_by_jid on a miss, starting at offset 0) returns code c,
there is an offset k such that c is the derived candidate at offset k,
c was not occupied in the starting table, and every candidate at an
offset below k was occupied; in particular an occupied code is never
returned, and if the offset-0 candidate collides the result is the
candidate at offset 1 or a later free candidate. -/
theorem create_room_first_free (hashFn : String → Int) (now : Int)
    (fuel : Nat) (jid : String) (t : Table) (c : Int) (t2 : Table)
    (h : create_room hashFn now fuel jid t 0 = some (c, t2)) :
    ∃ k, c = generate_room_id (hashFn jid) k ∧ find_by_id c t = none ∧
      ∀ j < k, (find_by_id (generate_room_id (hashFn jid) j) t).isSome := by
  obtain ⟨-, hfree, k, -, hk2, hk3⟩ :=
    create_room_spec hashFn now fuel 0 jid t c t2 h
  exact ⟨k, hk2, hfree, fun j hj => hk3 j (Nat.zero_le j) hj⟩

/-- Witness instantiating the C5 theorem on a table in which the
offset-0 candidate (code 0, with the constant-0 stand-in hash) is
occupied, so allocation for "a" returns the offset-1 candidate 1. -/
theorem create_room_first_free_witness :
    ∃ k, (1 : Int) = generate_room_id (hzero "a") k ∧
      find_by_id 1 [⟨0, "b", 0⟩] = none ∧
      ∀ j < k,
        (find_by_id (generate_room_id (hzero "a") j) [⟨0, "b", 0⟩]).isSome :=
  create_room_first_free hzero 3 10 "a" [⟨0, "b", 0⟩] 1
    [⟨0, "b", 0⟩, ⟨1, "a", 3⟩] (by decide)

theorem create_room_none_of_all_occupied (hashFn : String → Int)
    (now : Int) (jid : String) (t : Table)
    (hocc : ∀ k : Nat, (find_by_id (generate_room_id (hashFn jid) k) t).isSome) :
    ∀ (fuel offset : Nat), create_room hashFn now fuel jid t offset = none := by
  intro fuel
  induction fuel with
  | zero => intro offset; rfl
  | succ fuel ih =>
    intro offset
    obtain ⟨s, hs⟩ := Option.isSome_iff_exists.mp (hocc offset)
    simp only [create_room, hs]
    exact ih (offset + 1)

/-- A table occupying every code of the ID_LENGTH-digit space. -/
def fullTable : Table :=
  (List.range (10 ^ ID_LENGTH)).map (fun i : Nat => ⟨(i : Int), "r", 0⟩)

theorem fullTable_occupied (c : Int) (h0 : 0 ≤ c)
    (h1 : c < ((10 ^ ID_LENGTH : Nat) : Int)) :
    (find_by_id c fullTable).isSome := by
  have e5 : (10 ^ ID_LENGTH : Nat) = 100000 := by norm_num [ID_LENGTH]
  rw [e5] at h1
  rw [find_by_id_isSome_iff]
  refine ⟨⟨c, "r", 0⟩, ?_, rfl⟩
  have h2 : c.toNat ∈ List.range (10 ^ ID_LENGTH) := by
    rw [List.mem_range, e5]
    omega
  have h3 := List.mem_map_of_mem (fun i : Nat => (⟨(i : Int), "r", 0⟩ : Row)) h2
  simp only [Int.toNat_of_nonneg h0] at h3
  have hft : fullTable
      = List.map (fun i : Nat => (⟨(i : Int), "r", 0⟩ : Row))
        (List.range (10 ^ ID_LENGTH)) := rfl
  rw [hft]
  exact h3

theorem generate_room_id_hzero (jid : String) (k : Nat) :
    generate_room_id (hzero jid) k = (k : Int) % ((10 ^ ID_LENGTH : Nat) : Int)
      ∧ 0 ≤ generate_room_id (hzero jid) k
      ∧ generate_room_id (hzero jid) k < ((10 ^ ID_LENGTH : Nat) : Int) := by
  have hz : normalizeHash (hzero jid) = 0 := by norm_num [hzero, normalizeHash]
  have hge : (0 : Int) ≤ normalizeHash (hzero jid) + (k : Nat) := by
    rw [hz]; positivity
  rw [generate_room_id, lastDigits, if_pos hge, hz]
  refine ⟨by ring_nf, Int.emod_nonneg _ (by norm_num [ID_LENGTH]),
    Int.emod_lt_of_pos _ (by norm_num [ID_LENGTH])⟩

/-- C6 counterexample: on a table occupying every id of the
ID_LENGTH-digit space, create_room does not return within 10^5 + 1
probes (by create_room_none_of_all_occupied it never returns for any
fuel): the source has no exhaustion guard and signals no
AllocationExhausted error, it simply recurses forever. -/
theorem create_room_exhausted_cex :
    create_room hzero 0 (10 ^ 5 + 1) "x" fullTable 0 = none := by
  apply create_room_none_of_all_occupied
  intro k
  obtain ⟨-, hge, hlt⟩ := generate_room_id_hzero "x" k
  exact fullTable_occupied _ hge hlt

theorem create_room_isSome_of_free (hashFn : String → Int) (now : Int)
    (jid : String) (t : Table) :
    ∀ (fuel offset : Nat),
      (∃ j, offset ≤ j ∧ j < offset + fuel ∧
        find_by_id (generate_room_id (hashFn jid) j) t = none) →
      (create_room hashFn now fuel jid t offset).isSome := by
  intro fuel
  induction fuel with
  | zero =>
    intro offset h
    obtain ⟨j, h1, h2, -⟩ := h
    omega
  | succ fuel ih =>
    intro offset h
    obtain ⟨j, h1, h2, hfree⟩ := h
    cases hfd : find_by_id (generate_room_id (hashFn jid) offset) t with
    | none => simp [create_room, hfd]
    | some s =>
      simp only [create_room, hfd]
      apply ih (offset + 1)
      have hne : j ≠ offset := by
        intro he
        rw [he, hfd] at hfree
        cases hfree
      exact ⟨j, by omega, by omega, hfree⟩

theorem exists_free_id (t : Table) (hlen : t.length < 10 ^ ID_LENGTH) :
    ∃ m : Nat, m < 10 ^ ID_LENGTH ∧ find_by_id (m : Int) t = none := by
  by_contra hcon
  push_neg at hcon
  have hmem : ∀ m : Nat, m < 10 ^ ID_LENGTH → ((m : Int) ∈ t.map Row.id) := by
    intro m hm
    have hne := hcon m hm
    rw [Option.ne_none_iff_isSome, find_by_id_isSome_iff] at hne
    obtain ⟨r, hr, hid⟩ := hne
    exact List.mem_map.mpr ⟨r, hr, hid⟩
  have hsub : (Finset.range (10 ^ ID_LENGTH)).image (fun m : Nat => (m : Int))
      ⊆ (t.map Row.id).toFinset := by
    intro x hx
    rw [Finset.mem_image] at hx
    obtain ⟨m, hm, hxm⟩ := hx
    rw [List.mem_toFinset, ← hxm]
    exact hmem m (Finset.mem_range.mp hm)
  have hcard1 : ((Finset.range (10 ^ ID_LENGTH)).image
      (fun m : Nat => (m : Int))).card = 10 ^ ID_LENGTH := by
    rw [Finset.card_image_of_injective _ Nat.cast_injective,
      Finset.card_range]
  have hcard2 := Finset.card_le_card hsub
  have hcard3 : (t.map Row.id).toFinset.card ≤ t.length := by
    calc (t.map Row.id).toFinset.card
        ≤ (t.map Row.id).length := List.toFinset_card_le _
      _ = t.length := List.length_map _ _
  omega

/-- C6 (amended): as long as the table occupies fewer than the 10^5
possible codes and the hash value is in the CPython range, the
offset-retry recursion of create_room terminates within 10^5 + 1 probes
(the offset-0 ... offset-10^5 candidates sweep every residue of the
code space); on an exhausted code space, however, the recursion never
returns for any probe bound and no AllocationExhausted error is
signalled (see the counterexample). -/
theorem create_room_terminates (hashFn : String → Int) (now : Int)
    (jid : String) (t : Table)
    (hrange : -(2 ^ 63) ≤ hashFn jid)
    (hlen : t.length < 10 ^ 5) :
    (create_room hashFn now (10 ^ 5 + 1) jid t 0).isSome := by
  have e5 : (10 ^ ID_LENGTH : Nat) = 100000 := by norm_num [ID_LENGTH]
  have h63 : (2 : Int) ^ 63 = 9223372036854775808 := by norm_num
  obtain ⟨m, hm, hfree⟩ := exists_free_id t (by omega)
  rw [e5] at hm
  set nv := normalizeHash (hashFn jid) with hnv
  have hnorm : -1 ≤ nv := by
    rw [hnv]
    unfold normalizeHash maxsize
    split <;> omega
  have hk0 : (0 : Int) ≤ ((m : Int) - nv) % 100000 ∧
      ((m : Int) - nv) % 100000 < 100000 :=
    ⟨Int.emod_nonneg _ (by norm_num), Int.emod_lt_of_pos _ (by norm_num)⟩
  obtain ⟨k, hk1, hk2, hk3⟩ :
      ∃ k : Nat, k ≤ 100000 ∧ 0 ≤ nv + (k : Int) ∧
        (nv + (k : Int)) % 100000 = (m : Int) := by
    by_cases hc : nv + ((m : Int) - nv) % 100000 < 0
    · refine ⟨100000, le_refl _, by omega, by omega⟩
    · refine ⟨(((m : Int) - nv) % 100000).toNat, by omega, by omega, by omega⟩
  apply create_room_isSome_of_free
  refine ⟨k, Nat.zero_le _, by omega, ?_⟩
  have hgen : generate_room_id (hashFn jid) k = (m : Int) := by
    rw [generate_room_id, ← hnv, lastDigits, if_pos hk2, e5]
    push_cast
    exact hk3
  rw [hgen]
  exact hfree

/-- Witness instantiating the amended C6 termination theorem on the
empty table with the constant-0 stand-in hash. -/
theorem create_room_terminates_witness :
    (create_room hzero 0 (10 ^ 5 + 1) "x" [] 0).isSome :=
  create_room_terminates hzero 0 "x" [] (by norm_num [hzero]) (by norm_num)

theorem mem_clean_iff (now : Int) (t : Table) (r : Row) :
    r ∈ clean now t ↔ r ∈ t ∧ ¬ (r.created_time < now - EXPIRE_SECONDS) := by
  simp [clean, List.mem_filter, not_lt]

/-- C7: the expiry sweep deletes exactly the rows with created_time <
now - EXPIRE_SECONDS and nothing else; a row created at now -
EXPIRE_SECONDS - 1 is removed, a row created at now - EXPIRE_SECONDS + 1
is retained, and sweeping twice with the same clock value removes
nothing the second time.  (The retention window is the source constant
EXPIRE_SECONDS = 60 * 60 * 24 * 3 seconds.) -/
theorem clean_correct (now : Int) (t : Table) :
    (∀ r, r ∈ clean now t ↔ r ∈ t ∧ ¬ (r.created_time < now - EXPIRE_SECONDS))
    ∧ clean now (clean now t) = clean now t
    ∧ (∀ r ∈ t, r.created_time = now - EXPIRE_SECONDS - 1 → r ∉ clean now t)
    ∧ (∀ r ∈ t, r.created_time = now - EXPIRE_SECONDS + 1 → r ∈ clean now t) := by
  refine ⟨mem_clean_iff now t, ?_, ?_, ?_⟩
  · apply List.filter_eq_self.mpr
    intro r hr
    have := (mem_clean_iff now t r).mp hr
    simpa using this.2
  · intro r hr hcreated hmem
    have := (mem_clean_iff now t r).mp hmem
    omega
  · intro r hr hcreated
    exact (mem_clean_iff now t r).mpr ⟨hr, by omega⟩

/-- Witness instantiating the C7 theorem at now = 259201 on a two-row
table: the row created at 0 = now - EXPIRE_SECONDS - 1 is swept, the
row created at 2 = now - EXPIRE_SECONDS + 1 survives. -/
theorem clean_correct_witness :
    (⟨1, "a", 0⟩ : Row) ∉ clean 259201 [⟨1, "a", 0⟩, ⟨2, "b", 2⟩]
    ∧ (⟨2, "b", 2⟩ : Row) ∈ clean 259201 [⟨1, "a", 0⟩, ⟨2, "b", 2⟩] :=
  ⟨(clean_correct 259201 [⟨1, "a", 0⟩, ⟨2, "b", 2⟩]).2.2.1 ⟨1, "a", 0⟩
      (by decide) (by decide),
   (clean_correct 259201 [⟨1, "a", 0⟩, ⟨2, "b", 2⟩]).2.2.2 ⟨2, "b", 2⟩
      (by decide) (by decide)⟩

/-- C10: the deletion condition of the sweep is a strict less-than, so a
row whose created_time equals now - EXPIRE_SECONDS exactly is retained;
rows become eligible for deletion only strictly after the retention
window has elapsed. -/
theorem clean_retains_exact_boundary (now : Int) (t : Table) (r : Row)
    (hr : r ∈ t) (hc : r.created_time = now - EXPIRE_SECONDS) :
    r ∈ clean now t :=
  (mem_clean_iff now t r).mpr ⟨hr, by omega⟩

/-- Witness instantiating the C10 boundary theorem: a row created at 1 =
now - EXPIRE_SECONDS for now = 259201 survives the sweep. -/
theorem clean_retains_exact_boundary_witness :
    (⟨3, "c", 1⟩ : Row) ∈ clean 259201 [⟨3, "c", 1⟩] :=
  clean_retains_exact_boundary 259201 [⟨3, "c", 1⟩] ⟨3, "c", 1⟩
    (by decide) (by decide)

/-- C8: error handling of GET /conferenceMapper?id=v.  A value that does
not parse as an integer, or parses to a value ≤ 0, is answered 400
"Invalid ID"; a positive integer with no live mapping is answered 404
"Room ID not found" (find_by_id returns the explicit signal none, never
a sentinel string); a positive integer with a live mapping is answered
200 carrying that id and its identifier.  The store is unchanged in all
three cases. -/
theorem conferenceMapper_id_branch (hashFn : String → Int) (now : Int)
    (fuel : Nat) (v : String) (t : Table) :
    (parseInt v = none →
      conferenceMapper_GET hashFn now fuel none (some v) t
        = (⟨400, "Invalid ID", none, none⟩, t))
    ∧ (∀ n : Int, parseInt v = some n → n ≤ 0 →
      conferenceMapper_GET hashFn now fuel none (some v) t
        = (⟨400, "Invalid ID", none, none⟩, t))
    ∧ (∀ n : Int, parseInt v = some n → 0 < n → find_by_id n t = none →
      conferenceMapper_GET hashFn now fuel none (some v) t
        = (⟨404, "Room ID not found", none, none⟩, t))
    ∧ (∀ (n : Int) (jid : String), parseInt v = some n → 0 < n →
      find_by_id n t = some jid →
      conferenceMapper_GET hashFn now fuel none (some v) t
        = (okMappingResponse n jid, t)) := by
  refine ⟨?_, ?_, ?_, ?_⟩
  · intro h
    simp [conferenceMapper_GET, h]
  · intro n h hle
    simp [conferenceMapper_GET, h, if_pos hle]
  · intro n h hpos hfind
    simp [conferenceMapper_GET, h, if_neg (not_le.mpr hpos), hfind]
  · intro n jid h hpos hfind
    simp [conferenceMapper_GET, h, if_neg (not_le.mpr hpos), hfind]

/-- Witness instantiating the C8 theorem on its four branches: a
non-numeric id and the id 0 are answered 400, the unused id 99999999 is
answered 404, and a mapped id is answered 200 with its identifier. -/
theorem conferenceMapper_id_branch_witness :
    conferenceMapper_GET hzero 0 1 none (some "abc") []
      = (⟨400, "Invalid ID", none, none⟩, [])
    ∧ conferenceMapper_GET hzero 0 1 none (some "0") []
      = (⟨400, "Invalid ID", none, none⟩, [])
    ∧ conferenceMapper_GET hzero 0 1 none (some "99999999") []
      = (⟨404, "Room ID not found", none, none⟩, [])
    ∧ conferenceMapper_GET hzero 0 1 none (some "5") [⟨5, "a", 0⟩]
      = (okMappingResponse 5 "a", [⟨5, "a", 0⟩]) :=
  ⟨(conferenceMapper_id_branch hzero 0 1 "abc" []).1 (by decide),
   (conferenceMapper_id_branch hzero 0 1 "0" []).2.1 0 (by decide) (by decide),
   (conferenceMapper_id_branch hzero 0 1 "99999999" []).2.2.1 99999999
      (by decide) (by decide) (by decide),
   (conferenceMapper_id_branch hzero 0 1 "5" [⟨5, "a", 0⟩]).2.2.2 5 "a"
      (by decide) (by decide) (by decide)⟩

/-- C9: parameter precedence in GET /conferenceMapper.  When a non-empty
conference parameter is present the handler takes the conference branch
(resolving or creating a mapping for it) and the id parameter is ignored
entirely: the result is identical to the same request without any id
parameter, and on a successful lookup it is the 200 mapping response. -/
theorem conference_param_precedence (hashFn : String → Int) (now : Int)
    (fuel : Nat) (jid : String) (id_param : Option String) (t : Table) :
    conferenceMapper_GET hashFn now fuel (some jid) id_param t
      = conferenceMapper_GET hashFn now fuel (some jid) none t
    ∧ (∀ (c : Int) (t2 : Table),
        find_by_jid hashFn now fuel jid t = some (c, t2) →
        conferenceMapper_GET hashFn now fuel (some jid) id_param t
          = (okMappingResponse c jid, t2)) := by
  refine ⟨rfl, ?_⟩
  intro c t2 h
  simp [conferenceMapper_GET, h]

/-- Witness instantiating the C9 precedence theorem: with both
conference=a and id=7 present the handler creates and returns the
mapping for "a" and ignores the id parameter. -/
theorem conference_param_precedence_witness :
    conferenceMapper_GET hzero 0 1 (some "a") (some "7") []
      = (okMappingResponse 0 "a", [⟨0, "a", 0⟩]) :=
  (conference_param_precedence hzero 0 1 "a" (some "7") []).2 0
    [⟨0, "a", 0⟩] (by decide)
